import Mathlib

/-!
Shallow embedding of the feature-engineering and vector-codec core of the
`Typescript_Neural_network_library` class (file
`Typescript_Neural_network_library_class.ts`), together with proofs about it.

JavaScript numbers are modelled by `ENum`: exact rationals extended with the
IEEE special values `+Infinity`, `-Infinity` and `NaN`.  Arithmetic on finite
values is exact (rounding is not modelled); the special-value rules for
addition, subtraction and division follow the IEEE / ECMAScript semantics,
which is what the unguarded divisions in the source can produce.
JavaScript out-of-bounds array reads yield `undefined`; these are modelled by
`Option`-valued lookups (`List.get?`), with `none` standing for `undefined`.
-/

/-- A JavaScript number: an exact rational, `+Infinity`, `-Infinity` or `NaN`. -/
inductive ENum where
  | fin : ℚ → ENum
  | pinf : ENum
  | ninf : ENum
  | nan : ENum
deriving DecidableEq

/-- JavaScript `+` on numbers (exact on finite values). -/
def jsAdd : ENum → ENum → ENum
  | ENum.nan, _ => ENum.nan
  | _, ENum.nan => ENum.nan
  | ENum.fin a, ENum.fin b => ENum.fin (a + b)
  | ENum.pinf, ENum.ninf => ENum.nan
  | ENum.ninf, ENum.pinf => ENum.nan
  | ENum.pinf, _ => ENum.pinf
  | _, ENum.pinf => ENum.pinf
  | ENum.ninf, _ => ENum.ninf
  | _, ENum.ninf => ENum.ninf

/-- JavaScript `-` on numbers (exact on finite values). -/
def jsSub : ENum → ENum → ENum
  | ENum.nan, _ => ENum.nan
  | _, ENum.nan => ENum.nan
  | ENum.fin a, ENum.fin b => ENum.fin (a - b)
  | ENum.pinf, ENum.pinf => ENum.nan
  | ENum.ninf, ENum.ninf => ENum.nan
  | ENum.pinf, _ => ENum.pinf
  | ENum.ninf, _ => ENum.ninf
  | _, ENum.pinf => ENum.ninf
  | _, ENum.ninf => ENum.pinf

/-- JavaScript `/` on numbers: division by zero yields `NaN` (for `0/0`) or a
signed infinity, exactly as in ECMAScript (`-0` is identified with `0`). -/
def jsDiv : ENum → ENum → ENum
  | ENum.nan, _ => ENum.nan
  | _, ENum.nan => ENum.nan
  | ENum.fin a, ENum.fin b =>
      if b = 0 then (if a = 0 then ENum.nan else if 0 < a then ENum.pinf else ENum.ninf)
      else ENum.fin (a / b)
  | ENum.fin _, ENum.pinf => ENum.fin 0
  | ENum.fin _, ENum.ninf => ENum.fin 0
  | ENum.pinf, ENum.fin b => if 0 ≤ b then ENum.pinf else ENum.ninf
  | ENum.ninf, ENum.fin b => if 0 ≤ b then ENum.ninf else ENum.pinf
  | _, _ => ENum.nan

/-- `CandleInterface`: one raw market candle. Raw candle fields come from
`parseFloat` of exchange data and are modelled as exact rationals. -/
structure CandleInterface where
  openTime : ℚ
  «open» : ℚ
  high : ℚ
  low : ℚ
  close : ℚ
  volume : ℚ
  closeTime : ℚ
  quoteVolume : ℚ
  trades : ℚ
  baseAssetVolume : ℚ
  quoteAssetVolume : ℚ
deriving DecidableEq

/-- The closing prices of a candle list, in order. -/
def closes (candles : List CandleInterface) : List ℚ :=
  candles.map (fun c => c.close)

/-- `calculateSMA(candles, period)`: for each index `i`, pushes `0` while
`i < period - 1`, otherwise the sum of the trailing `period` closes divided by
`period` (the division performed in JavaScript arithmetic). -/
def calculateSMA (candles : List CandleInterface) (period : ℕ) : List ENum :=
  (List.range candles.length).map fun i =>
    if i < period - 1 then ENum.fin 0
    else jsDiv (ENum.fin (((List.range period).map fun j =>
      (closes candles).getD (i - j) 0).sum)) (ENum.fin (period : ℚ))

/-- The oscillator value pushed by `calculateRSI` at one step:
`100 - (100 / (1 + (gains/period) / (losses/period)))` in JavaScript
arithmetic (unguarded divisions). -/
def rsiValue (gains losses : ℚ) (period : ℕ) : ENum :=
  jsSub (ENum.fin 100)
    (jsDiv (ENum.fin 100)
      (jsAdd (ENum.fin 1)
        (jsDiv (jsDiv (ENum.fin gains) (ENum.fin (period : ℚ)))
               (jsDiv (ENum.fin losses) (ENum.fin (period : ℚ))))))

/-- The loop of `calculateRSI`, carrying the mutable accumulators `gains` and
`losses` across iterations; `i` is the loop index (starting at 1) and `fuel`
the number of remaining iterations (`candles.length - i`, fixed by the loop
bound).  When `i ≥ period` it pushes the oscillator value computed from the
current accumulators and then retires the change `period` steps behind. -/
def rsiLoop (cs : List ℚ) (period : ℕ) :
    (fuel : ℕ) → (i : ℕ) → (gains : ℚ) → (losses : ℚ) → List ENum
  | 0, _, _, _ => []
  | fuel + 1, i, gains, losses =>
    let change := cs.getD i 0 - cs.getD (i - 1) 0
    let gains1 := if 0 < change then gains + change else gains
    let losses1 := if 0 < change then losses else losses - change
    if period ≤ i then
      let prevChange := cs.getD (i - period + 1) 0 - cs.getD (i - period) 0
      let gains2 := if 0 < prevChange then gains1 - prevChange else gains1
      let losses2 := if 0 < prevChange then losses1 else losses1 + prevChange
      rsiValue gains1 losses1 period :: rsiLoop cs period fuel (i + 1) gains2 losses2
    else
      ENum.fin 0 :: rsiLoop cs period fuel (i + 1) gains1 losses1

/-- `calculateRSI(candles, period)`: the loop runs for `i = 1 .. length-1`
(that is, `length - 1` iterations) with both accumulators starting at `0`. -/
def calculateRSI (candles : List CandleInterface) (period : ℕ) : List ENum :=
  rsiLoop (closes candles) period (candles.length - 1) 1 0 0

/-- `calculateCorrelation(candles, btcCandles)`: for each index `i` in bounds
of `btcCandles`, Pearson correlation of the closing-price prefixes `[0..i]`
(expanding window); otherwise the sentinel `0`.  `Math.sqrt` is an external
primitive and is passed in as `msqrt`. -/
def calculateCorrelation (msqrt : ℚ → ENum)
    (candles btcCandles : List CandleInterface) : List ENum :=
  (List.range candles.length).map fun i =>
    if i < btcCandles.length then
      let meanA := ((closes candles).take (i + 1)).sum / (i + 1 : ℚ)
      let meanB := ((closes btcCandles).take (i + 1)).sum / (i + 1 : ℚ)
      let cov := ((List.range (i + 1)).map fun j =>
        ((closes candles).getD j 0 - meanA) * ((closes btcCandles).getD j 0 - meanB)).sum
      let varA := ((List.range (i + 1)).map fun j =>
        ((closes candles).getD j 0 - meanA) ^ 2).sum
      let varB := ((List.range (i + 1)).map fun j =>
        ((closes btcCandles).getD j 0 - meanB) ^ 2).sum
      jsDiv (ENum.fin cov) (msqrt (varA * varB))
    else ENum.fin 0

/-- `CandleDataInterface`: a candle enriched with the four indicator fields.
Array reads in `calculateIndicators` may be out of bounds, so each field holds
an `Option ENum` (`none` = JavaScript `undefined`). -/
structure CandleDataInterface where
  candle : CandleInterface
  sma_short : Option ENum
  sma_long : Option ENum
  rsi : Option ENum
  btc_correlation : Option ENum
deriving DecidableEq

/-- `calculateIndicators(candles, btcCandles)`: SMA with periods 50 and 200,
RSI with period 14, correlation against `btcCandles`; one enriched record per
candle, each field read from the indicator array at the candle's index. -/
def calculateIndicators (msqrt : ℚ → ENum)
    (candles btcCandles : List CandleInterface) : List CandleDataInterface :=
  let smaShort := calculateSMA candles 50
  let smaLong := calculateSMA candles 200
  let rsi := calculateRSI candles 14
  let btcCorrelation := calculateCorrelation msqrt candles btcCandles
  candles.mapIdx fun index candle =>
    { candle := candle
      sma_short := smaShort.get? index
      sma_long := smaLong.get? index
      rsi := rsi.get? index
      btc_correlation := btcCorrelation.get? index }

/-- `PositionType`: the three mutually exclusive position states. -/
inductive PositionType where
  | LONG : PositionType
  | SHORT : PositionType
  | NO : PositionType
deriving DecidableEq

/-- `LearningDataInterface`: symbol, interval and the enriched candle sequence. -/
structure LearningDataInterface where
  symbol : String
  interval : String
  candles : List CandleDataInterface
deriving DecidableEq

/-- `OutputTrainingDataInterface`: a decision label. -/
structure OutputTrainingDataInterface where
  positionType : PositionType
  takeProfitPrice : ℚ
  stopLossPrice : ℚ
deriving DecidableEq

/-- `TrainingDataInterface`: one supervised training example. -/
structure TrainingDataInterface where
  input : LearningDataInterface
  output : OutputTrainingDataInterface
deriving DecidableEq

/-- `flattenInput(input)`: 8 numbers per enriched candle, in candle order.
Raw candle prices are always finite numbers; the indicator fields are copied
verbatim (they may be `undefined`, i.e. `none`). -/
def flattenInput (input : LearningDataInterface) : List (Option ENum) :=
  input.candles.flatMap fun cd =>
    [some (ENum.fin cd.candle.open), some (ENum.fin cd.candle.high),
     some (ENum.fin cd.candle.low), some (ENum.fin cd.candle.close),
     cd.sma_short, cd.sma_long, cd.rsi, cd.btc_correlation]

/-- `flattenOutput(output)`: the one-hot triple for the position state followed
by the two prices — always exactly 5 numbers. -/
def flattenOutput (output : OutputTrainingDataInterface) : List ℚ :=
  [if output.positionType = PositionType.LONG then 1 else 0,
   if output.positionType = PositionType.SHORT then 1 else 0,
   if output.positionType = PositionType.NO then 1 else 0,
   output.takeProfitPrice,
   output.stopLossPrice]

/-- `unflattenOutput(output)`: strict-equality decode — slot 0 equal to `1`
means LONG, else slot 1 equal to `1` means SHORT, else NO; the prices are read
from slots 3 and 4.  The claims only exercise vectors of length ≥ 5, where
`getD` agrees with the JavaScript in-bounds read. -/
def unflattenOutput (output : List ℚ) : OutputTrainingDataInterface :=
  { positionType :=
      if output.getD 0 0 = 1 then PositionType.LONG
      else if output.getD 1 0 = 1 then PositionType.SHORT
      else PositionType.NO
    takeProfitPrice := output.getD 3 0
    stopLossPrice := output.getD 4 0 }

/-- `MarketOptions`: configuration of `addMarketTrainingData`. -/
structure MarketOptions where
  symbol : String
  interval : String
  limit : ℕ
  endTime : String
  positionType : PositionType
  takeProfitPrice : ℚ
  stopLossPrice : ℚ

/-- `LimitOptions`: configuration of `addLimitTrainingData`; compared with
`MarketOptions` it adds `orderPrice`. -/
structure LimitOptions where
  symbol : String
  interval : String
  limit : ℕ
  endTime : String
  positionType : PositionType
  orderPrice : ℚ
  takeProfitPrice : ℚ
  stopLossPrice : ℚ

/-- The persistence step shared by `addMarketTrainingData` and
`addLimitTrainingData`: read the persisted list if the file exists (else start
from `[]`), push the new example, write the whole list back.  The persisted
file state is modelled as `Option (List TrainingDataInterface)`, `none`
standing for a missing file. -/
def appendTrainingData (fileState : Option (List TrainingDataInterface))
    (trainingData : TrainingDataInterface) : List TrainingDataInterface :=
  (match fileState with
   | none => []
   | some data => data) ++ [trainingData]

/-- `addMarketTrainingData(filePath, option)` from the point where both candle
fetches have completed: build the `TrainingDataInterface` from the option and
the enriched candles, then persist it with the shared append step.  Returns
the new persisted file contents. -/
def addMarketTrainingData (msqrt : ℚ → ENum)
    (candles btcCandles : List CandleInterface)
    (fileState : Option (List TrainingDataInterface))
    (option : MarketOptions) : List TrainingDataInterface :=
  let candleData := calculateIndicators msqrt candles btcCandles
  let trainingData : TrainingDataInterface :=
    { input := { symbol := option.symbol, interval := option.interval,
                 candles := candleData }
      output := { positionType := option.positionType,
                  takeProfitPrice := option.takeProfitPrice,
                  stopLossPrice := option.stopLossPrice } }
  appendTrainingData fileState trainingData

/-- `addLimitTrainingData(filePath, option)` from the point where both candle
fetches have completed; its body is identical to `addMarketTrainingData` and
never reads `option.orderPrice`. -/
def addLimitTrainingData (msqrt : ℚ → ENum)
    (candles btcCandles : List CandleInterface)
    (fileState : Option (List TrainingDataInterface))
    (option : LimitOptions) : List TrainingDataInterface :=
  let candleData := calculateIndicators msqrt candles btcCandles
  let trainingData : TrainingDataInterface :=
    { input := { symbol := option.symbol, interval := option.interval,
                 candles := candleData }
      output := { positionType := option.positionType,
                  takeProfitPrice := option.takeProfitPrice,
                  stopLossPrice := option.stopLossPrice } }
  appendTrainingData fileState trainingData

/-! ### Test-data helpers and spec-side definitions -/

/-- A candle whose every price field is `c` (test data for concrete inputs). -/
def mkC (c : ℚ) : CandleInterface :=
  { openTime := 0, «open» := c, high := c, low := c, close := c, volume := 0,
    closeTime := 0, quoteVolume := 0, trades := 0, baseAssetVolume := 0,
    quoteAssetVolume := 0 }

/-- A concrete stand-in for `Math.sqrt` (the claims about correlation only use
that `Math.sqrt 0 = 0`). -/
def msqrt0 : ℚ → ENum := fun _ => ENum.fin 0

/-- Learning data built from 15 constant-close candles (test input for the
zero-average-loss edge case). -/
def ld15 (msqrt : ℚ → ENum) : LearningDataInterface :=
  { symbol := "ETHUSDT"
    interval := "1h"
    candles := calculateIndicators msqrt (List.replicate 15 (mkC 5))
      (List.replicate 15 (mkC 5)) }

/-- Spec-side: the arithmetic mean of the closing prices at indices
`i - p + 1` through `i` inclusive. -/
def windowMean (cs : List CandleInterface) (i p : ℕ) : ℚ :=
  (((closes cs).drop (i + 1 - p)).take p).sum / p

/-- Spec-side: the closing-price change at transition `k` (from candle `k-1`
to candle `k`). -/
def priceChange (cs : List CandleInterface) (k : ℕ) : ℚ :=
  (closes cs).getD k 0 - (closes cs).getD (k - 1) 0

/-- Spec-side: the cumulative sum of the positive closing-price changes over
the first `p` transitions. -/
def gainSum (cs : List CandleInterface) (p : ℕ) : ℚ :=
  ((List.range p).map fun t => max (priceChange cs (t + 1)) 0).sum

/-- Spec-side: the cumulative sum (as a positive magnitude) of the negative
closing-price changes over the first `p` transitions. -/
def lossSum (cs : List CandleInterface) (p : ℕ) : ℚ :=
  ((List.range p).map fun t => max (-(priceChange cs (t + 1))) 0).sum

/-- The sum of the positive parts of the `n` closing-price changes at
transitions `i, i+1, …, i+n-1` of the close list `cs`. -/
def posSumFrom (cs : List ℚ) (i n : ℕ) : ℚ :=
  ((List.range n).map fun t => max (cs.getD (i + t) 0 - cs.getD (i + t - 1) 0) 0).sum

/-- The sum of the magnitudes of the negative parts of the `n` closing-price
changes at transitions `i, i+1, …, i+n-1` of the close list `cs`. -/
def negSumFrom (cs : List ℚ) (i n : ℕ) : ℚ :=
  ((List.range n).map fun t => max (-(cs.getD (i + t) 0 - cs.getD (i + t - 1) 0)) 0).sum

/-- A concrete training example used by witnesses. -/
def tdEx : TrainingDataInterface :=
  { input := { symbol := "ETHUSDT", interval := "1h", candles := [] }
    output := { positionType := PositionType.NO, takeProfitPrice := 0, stopLossPrice := 0 } }

/-! ### General lemmas -/

theorem map_range_getD {α : Type} (f : ℕ → α) (n i : ℕ) (d : α) :
    ((List.range n).map f).getD i d = if i < n then f i else d := by
  rcases Nat.lt_or_ge i n with h | h
  · rw [List.getD_eq_getElem?_getD, List.getElem?_map, List.getElem?_range h]
    simp [h]
  · rw [List.getD_eq_getElem?_getD, List.getElem?_map,
      List.getElem?_eq_none (by simpa using h)]
    simp [Nat.not_lt.mpr h]

theorem jsDiv_fin_fin {a b : ℚ} (hb : b ≠ 0) :
    jsDiv (ENum.fin a) (ENum.fin b) = ENum.fin (a / b) := by
  simp [jsDiv, hb]

theorem window_sum_eq (l : List ℚ) (i : ℕ) :
    ∀ p, 1 ≤ p → p - 1 ≤ i → i < l.length →
      ((List.range p).map fun j => l.getD (i - j) 0).sum =
        ((l.drop (i + 1 - p)).take p).sum := by
  intro p
  induction p with
  | zero => omega
  | succ p ih =>
    intro _ hpi hi
    rcases Nat.eq_zero_or_pos p with hp0 | hp1
    · subst hp0
      have hii : i + 1 - (0 + 1) = i := by omega
      rw [hii, List.drop_eq_getElem_cons hi, List.take_succ_cons, List.take_zero]
      simp [List.range_succ, List.getD_eq_getElem?_getD, List.getElem?_eq_getElem hi]
    · have hstep : i + 1 - (p + 1) < l.length := by omega
      rw [List.range_succ, List.map_append, List.sum_append,
        List.drop_eq_getElem_cons hstep]
      have harith : i + 1 - (p + 1) + 1 = i + 1 - p := by omega
      rw [List.take_succ_cons, List.sum_cons, harith, ih hp1 (by omega) hi]
      have hip : i + 1 - (p + 1) = i - p := by omega
      simp only [hip]
      simp [List.getD_eq_getElem?_getD,
        List.getElem?_eq_getElem (show i - p < l.length by omega), add_comm]

theorem closes_length (cs : List CandleInterface) : (closes cs).length = cs.length := by
  simp [closes]

theorem calculateSMA_length (cs : List CandleInterface) (p : ℕ) :
    (calculateSMA cs p).length = cs.length := by
  simp [calculateSMA]

theorem calculateSMA_getD (cs : List CandleInterface) (p i : ℕ) (hi : i < cs.length) :
    (calculateSMA cs p).getD i (ENum.fin 0) =
      if i < p - 1 then ENum.fin 0
      else jsDiv (ENum.fin (((List.range p).map fun j =>
        (closes cs).getD (i - j) 0).sum)) (ENum.fin (p : ℚ)) := by
  rw [calculateSMA, map_range_getD, if_pos hi]

/-! ### Claim theorems -/

/-- C3: for every candle sequence of length `L` and period `p ≥ 1`,
`calculateSMA` returns an array of length `L` whose value at every index
`i < p-1` is exactly `0`, and whose value at every index `i ≥ p-1` is the
arithmetic mean of the closing prices at indices `i-p+1` through `i`
inclusive; in particular closes `[1,2,3,4,5]` with `p = 3` yield
`[0, 0, 2, 3, 4]`. -/
theorem claim_C3_sma (cs : List CandleInterface) (p : ℕ) (hp : 1 ≤ p) :
    (calculateSMA cs p).length = cs.length ∧
    (∀ i, i < p - 1 → i < cs.length →
      (calculateSMA cs p).getD i (ENum.fin 0) = ENum.fin 0) ∧
    (∀ i, p - 1 ≤ i → i < cs.length →
      (calculateSMA cs p).getD i (ENum.fin 0) = ENum.fin (windowMean cs i p)) ∧
    calculateSMA ([1, 2, 3, 4, 5].map mkC) 3 =
      [ENum.fin 0, ENum.fin 0, ENum.fin 2, ENum.fin 3, ENum.fin 4] := by
  refine ⟨calculateSMA_length cs p, ?_, ?_, ?_⟩
  · intro i hip hi
    rw [calculateSMA_getD cs p i hi, if_pos hip]
  · intro i hip hi
    rw [calculateSMA_getD cs p i hi, if_neg (by omega),
      window_sum_eq (closes cs) i p hp hip (by simpa [closes_length] using hi),
      jsDiv_fin_fin (Nat.cast_ne_zero.mpr (by omega))]
    rfl
  · simp only [calculateSMA, closes, mkC, List.map_cons, List.map_nil, List.length_cons,
      List.length_nil, List.range_succ, List.range_zero, List.nil_append, List.cons_append,
      List.map_append, List.sum_append, List.getD, List.get?, jsDiv, List.sum_cons,
      List.sum_nil]
    norm_num

/-- Witness for C3: the moving average over closes `[1,2,3,4,5]` with period 3
at index 2 equals the mean of the first window. -/
theorem claim_C3_sma_witness :
    (1 : ℕ) ≤ 3 ∧
    (calculateSMA ([1, 2, 3, 4, 5].map mkC) 3).getD 2 (ENum.fin 0) =
      ENum.fin (windowMean ([1, 2, 3, 4, 5].map mkC) 2 3) :=
  ⟨by norm_num,
   (claim_C3_sma ([1, 2, 3, 4, 5].map mkC) 3 (by norm_num)).2.2.1 2 (by norm_num) (by simp)⟩

/-- C6: for every decision, `unflattenOutput (flattenOutput d)` recovers the
position state and both prices exactly, for all three position states. -/
theorem claim_C6_roundtrip (output : OutputTrainingDataInterface) :
    unflattenOutput (flattenOutput output) = output := by
  obtain ⟨pt, tp, sl⟩ := output
  cases pt <;> norm_num [flattenOutput, unflattenOutput] <;> decide

/-- Witness for C6 (it has no hypothesis; recorded at a concrete LONG
decision for the end-to-end prices 115 and 98). -/
theorem claim_C6_roundtrip_witness :
    unflattenOutput (flattenOutput
      { positionType := PositionType.LONG, takeProfitPrice := 115, stopLossPrice := 98 }) =
      { positionType := PositionType.LONG, takeProfitPrice := 115, stopLossPrice := 98 } :=
  claim_C6_roundtrip _

/-- C7: for every numeric vector of length at least 5, `unflattenOutput`
decodes LONG when slot 0 is exactly 1, otherwise SHORT when slot 1 is exactly
1, otherwise NO, and always returns slots 3 and 4 verbatim as the two prices. -/
theorem claim_C7_decode (v : List ℚ) (h : 5 ≤ v.length) :
    (unflattenOutput v).positionType =
      (if v.get ⟨0, by omega⟩ = 1 then PositionType.LONG
       else if v.get ⟨1, by omega⟩ = 1 then PositionType.SHORT
       else PositionType.NO) ∧
    (unflattenOutput v).takeProfitPrice = v.get ⟨3, by omega⟩ ∧
    (unflattenOutput v).stopLossPrice = v.get ⟨4, by omega⟩ := by
  refine ⟨?_, ?_, ?_⟩ <;>
    simp [unflattenOutput, List.getD_eq_getElem?_getD, List.get_eq_getElem,
      List.getElem?_eq_getElem (show 0 < v.length by omega),
      List.getElem?_eq_getElem (show 1 < v.length by omega),
      List.getElem?_eq_getElem (show 3 < v.length by omega),
      List.getElem?_eq_getElem (show 4 < v.length by omega)]

/-- Witness for C7: a vector where neither of the first two slots is exactly 1
silently decodes to NO, with the prices read verbatim. -/
theorem claim_C7_decode_witness :
    5 ≤ ([0, 1/2, 7, 9, 12] : List ℚ).length ∧
    (unflattenOutput ([0, 1/2, 7, 9, 12] : List ℚ)).positionType = PositionType.NO ∧
    (unflattenOutput ([0, 1/2, 7, 9, 12] : List ℚ)).takeProfitPrice = 9 ∧
    (unflattenOutput ([0, 1/2, 7, 9, 12] : List ℚ)).stopLossPrice = 12 := by
  have h := claim_C7_decode ([0, 1/2, 7, 9, 12] : List ℚ) (by norm_num)
  refine ⟨by norm_num, ?_, ?_, ?_⟩
  · rw [h.1]; norm_num [List.get_eq_getElem]
  · rw [h.2.1]; norm_num [List.get_eq_getElem]
  · rw [h.2.2]; norm_num [List.get_eq_getElem]

/-- C8: the persistence step of the add-training-data operations appends:
the new persisted sequence is one longer, keeps every prior entry at its
original position, and has the new example last. -/
theorem claim_C8_append (fileState : Option (List TrainingDataInterface))
    (td : TrainingDataInterface) :
    (appendTrainingData fileState td).length = (fileState.getD []).length + 1 ∧
    (∀ i, i < (fileState.getD []).length →
      (appendTrainingData fileState td).get? i = (fileState.getD []).get? i) ∧
    (appendTrainingData fileState td).getLast? = some td := by
  cases fileState with
  | none => simp [appendTrainingData]
  | some data =>
    refine ⟨by simp [appendTrainingData], ?_, by simp [appendTrainingData]⟩
    intro i hi
    simp only [Option.getD_some] at hi
    simp [appendTrainingData, List.get?_eq_getElem?, List.getElem?_append, hi]

/-- Witness for C8 at a one-element prior state. -/
theorem claim_C8_append_witness :
    (appendTrainingData (some [tdEx]) tdEx).length = ((some [tdEx]).getD []).length + 1 ∧
    (appendTrainingData (some [tdEx]) tdEx).get? 0 = ((some [tdEx]).getD []).get? 0 ∧
    (appendTrainingData (some [tdEx]) tdEx).getLast? = some tdEx := by
  have h := claim_C8_append (some [tdEx]) tdEx
  exact ⟨h.1, h.2.1 0 (by simp), h.2.2⟩

/-- C9: `addLimitTrainingData` and `addMarketTrainingData` construct and
persist the identical training example whenever their options agree on
symbol, interval, limit, endTime, positionType, takeProfitPrice and
stopLossPrice; the `orderPrice` field of `LimitOptions` has no effect. -/
theorem claim_C9_equiv (msqrt : ℚ → ENum) (candles btcCandles : List CandleInterface)
    (fileState : Option (List TrainingDataInterface)) (mo : MarketOptions) (lo : LimitOptions)
    (h1 : lo.symbol = mo.symbol) (h2 : lo.interval = mo.interval)
    (_h3 : lo.limit = mo.limit) (_h4 : lo.endTime = mo.endTime)
    (h5 : lo.positionType = mo.positionType)
    (h6 : lo.takeProfitPrice = mo.takeProfitPrice)
    (h7 : lo.stopLossPrice = mo.stopLossPrice) :
    addLimitTrainingData msqrt candles btcCandles fileState lo =
      addMarketTrainingData msqrt candles btcCandles fileState mo := by
  simp [addLimitTrainingData, addMarketTrainingData, h1, h2, h5, h6, h7]

/-- Witness for C9: two concrete option records that agree on the shared
fields (the limit options additionally carry an order price). -/
theorem claim_C9_equiv_witness :
    addLimitTrainingData msqrt0 [mkC 1] [mkC 2] none
      { symbol := "ETHUSDT", interval := "1h", limit := 10,
        endTime := "2024-01-01 00:00:00", positionType := PositionType.LONG,
        orderPrice := 5, takeProfitPrice := 7, stopLossPrice := 3 } =
    addMarketTrainingData msqrt0 [mkC 1] [mkC 2] none
      { symbol := "ETHUSDT", interval := "1h", limit := 10,
        endTime := "2024-01-01 00:00:00", positionType := PositionType.LONG,
        takeProfitPrice := 7, stopLossPrice := 3 } :=
  claim_C9_equiv msqrt0 [mkC 1] [mkC 2] none _ _ rfl rfl rfl rfl rfl rfl rfl

/-! ### RSI lemmas -/

theorem rsiLoop_length (cs : List ℚ) (p : ℕ) :
    ∀ fuel i g l, (rsiLoop cs p fuel i g l).length = fuel := by
  intro fuel
  induction fuel with
  | zero => intro i g l; rfl
  | succ fuel ih =>
    intro i g l
    rw [rsiLoop]
    by_cases hpi : p ≤ i <;> simp [hpi, ih]

theorem calculateRSI_length (cs : List CandleInterface) (p : ℕ) :
    (calculateRSI cs p).length = cs.length - 1 := by
  rw [calculateRSI, rsiLoop_length]

theorem rsiLoop_getD_zero (cs : List ℚ) (p : ℕ) :
    ∀ fuel i g l j, i + j < p → j < fuel →
      (rsiLoop cs p fuel i g l).getD j (ENum.fin 0) = ENum.fin 0 := by
  intro fuel
  induction fuel with
  | zero => intro _ _ _ j _ hj; omega
  | succ fuel ih =>
    intro i g l j hip _hj
    have hpi : ¬ p ≤ i := by omega
    simp only [rsiLoop, if_neg hpi]
    cases j with
    | zero => rfl
    | succ j =>
      rw [List.getD_cons_succ]
      exact ih (i + 1) _ _ j (by omega) (by omega)

theorem posSumFrom_succ (cs : List ℚ) (i n : ℕ) :
    posSumFrom cs i (n + 1) =
      max (cs.getD i 0 - cs.getD (i - 1) 0) 0 + posSumFrom cs (i + 1) n := by
  rw [posSumFrom, List.range_succ_eq_map, List.map_cons, List.sum_cons, List.map_map]
  have hshift :
      List.map ((fun t => max (cs.getD (i + t) 0 - cs.getD (i + t - 1) 0) 0) ∘ Nat.succ)
        (List.range n) =
      List.map (fun t => max (cs.getD (i + 1 + t) 0 - cs.getD (i + 1 + t - 1) 0) 0)
        (List.range n) := by
    apply List.map_congr_left
    intro t _
    have h1 : i + Nat.succ t = i + 1 + t := by omega
    simp only [Function.comp_apply, h1]
  rw [hshift, posSumFrom]
  simp

theorem negSumFrom_succ (cs : List ℚ) (i n : ℕ) :
    negSumFrom cs i (n + 1) =
      max (-(cs.getD i 0 - cs.getD (i - 1) 0)) 0 + negSumFrom cs (i + 1) n := by
  rw [negSumFrom, List.range_succ_eq_map, List.map_cons, List.sum_cons, List.map_map]
  have hshift :
      List.map ((fun t => max (-(cs.getD (i + t) 0 - cs.getD (i + t - 1) 0)) 0) ∘ Nat.succ)
        (List.range n) =
      List.map (fun t => max (-(cs.getD (i + 1 + t) 0 - cs.getD (i + 1 + t - 1) 0)) 0)
        (List.range n) := by
    apply List.map_congr_left
    intro t _
    have h1 : i + Nat.succ t = i + 1 + t := by omega
    simp only [Function.comp_apply, h1]
  rw [hshift, negSumFrom]
  simp

theorem rsiLoop_getD_first (cs : List ℚ) (p : ℕ) :
    ∀ n i g l fuel, i + n = p → n < fuel →
      (rsiLoop cs p fuel i g l).getD n (ENum.fin 0) =
        rsiValue (g + posSumFrom cs i (n + 1)) (l + negSumFrom cs i (n + 1)) p := by
  intro n
  induction n with
  | zero =>
    intro i g l fuel hip hfuel
    cases fuel with
    | zero => omega
    | succ fuel =>
      have hpi : p ≤ i := by omega
      simp only [rsiLoop, if_pos hpi, List.getD_cons_zero]
      rw [posSumFrom_succ, negSumFrom_succ]
      have hp0 : posSumFrom cs (i + 1) 0 = 0 := by simp [posSumFrom]
      have hn0 : negSumFrom cs (i + 1) 0 = 0 := by simp [negSumFrom]
      rw [hp0, hn0]
      rcases le_or_lt (cs.getD i 0 - cs.getD (i - 1) 0) 0 with hc | hc
      · simp only [if_neg (not_lt.mpr hc)]
        have e1 : g + (max (cs.getD i 0 - cs.getD (i - 1) 0) 0 + 0) = g := by
          rw [max_eq_right hc]; ring
        have e2 : l + (max (-(cs.getD i 0 - cs.getD (i - 1) 0)) 0 + 0) =
            l - (cs.getD i 0 - cs.getD (i - 1) 0) := by
          rw [max_eq_left (neg_nonneg.mpr hc)]; ring
        rw [e1, e2]
      · simp only [if_pos hc]
        have e1 : g + (max (cs.getD i 0 - cs.getD (i - 1) 0) 0 + 0) =
            g + (cs.getD i 0 - cs.getD (i - 1) 0) := by
          rw [max_eq_left hc.le]; ring
        have e2 : l + (max (-(cs.getD i 0 - cs.getD (i - 1) 0)) 0 + 0) = l := by
          rw [max_eq_right (by linarith : -(cs.getD i 0 - cs.getD (i - 1) 0) ≤ 0)]; ring
        rw [e1, e2]
  | succ n ih =>
    intro i g l fuel hip hfuel
    cases fuel with
    | zero => omega
    | succ fuel =>
      have hpi : ¬ p ≤ i := by omega
      simp only [rsiLoop, if_neg hpi, List.getD_cons_succ]
      rw [ih (i + 1) _ _ fuel (by omega) (by omega),
        posSumFrom_succ cs i (n + 1), negSumFrom_succ cs i (n + 1)]
      rcases le_or_lt (cs.getD i 0 - cs.getD (i - 1) 0) 0 with hc | hc
      · simp only [if_neg (not_lt.mpr hc)]
        have e1 : g + (max (cs.getD i 0 - cs.getD (i - 1) 0) 0 +
            posSumFrom cs (i + 1) (n + 1)) = g + posSumFrom cs (i + 1) (n + 1) := by
          rw [max_eq_right hc]; ring
        have e2 : l + (max (-(cs.getD i 0 - cs.getD (i - 1) 0)) 0 +
            negSumFrom cs (i + 1) (n + 1)) =
            l - (cs.getD i 0 - cs.getD (i - 1) 0) + negSumFrom cs (i + 1) (n + 1) := by
          rw [max_eq_left (neg_nonneg.mpr hc)]; ring
        rw [e1, e2]
      · simp only [if_pos hc]
        have e1 : g + (max (cs.getD i 0 - cs.getD (i - 1) 0) 0 +
            posSumFrom cs (i + 1) (n + 1)) =
            g + (cs.getD i 0 - cs.getD (i - 1) 0) + posSumFrom cs (i + 1) (n + 1) := by
          rw [max_eq_left hc.le]; ring
        have e2 : l + (max (-(cs.getD i 0 - cs.getD (i - 1) 0)) 0 +
            negSumFrom cs (i + 1) (n + 1)) = l + negSumFrom cs (i + 1) (n + 1) := by
          rw [max_eq_right (by linarith : -(cs.getD i 0 - cs.getD (i - 1) 0) ≤ 0)]; ring
        rw [e1, e2]

theorem gainSum_eq (cs : List CandleInterface) (p : ℕ) :
    gainSum cs p = posSumFrom (closes cs) 1 p := by
  rw [gainSum, posSumFrom]
  congr 1
  apply List.map_congr_left
  intro t _
  have h1 : 1 + t = t + 1 := by omega
  rw [h1, priceChange]

theorem lossSum_eq (cs : List CandleInterface) (p : ℕ) :
    lossSum cs p = negSumFrom (closes cs) 1 p := by
  rw [lossSum, negSumFrom]
  congr 1
  apply List.map_congr_left
  intro t _
  have h1 : 1 + t = t + 1 := by omega
  rw [h1, priceChange]

/-- C2 counterexample: with closes `[1,2,1,2,1]` and period `p = 2`, the claim
"the oscillator's value at every index `i < p` is the sentinel 0" fails: the
returned array is `[0, 50, 50, 50]`, whose value at index `1 < 2` is `50`. -/
theorem claim_C2_counterexample :
    ¬ (∀ i, i < 2 →
        (calculateRSI ([1, 2, 1, 2, 1].map mkC) 2).getD i (ENum.fin 0) = ENum.fin 0) := by
  intro h
  have h1 := h 1 (by norm_num)
  rw [calculateRSI,
    rsiLoop_getD_first (closes ([1, 2, 1, 2, 1].map mkC)) 2 1 1 0 0 _
      (by norm_num) (by simp)] at h1
  rw [show (1 : ℕ) + 1 = 2 from rfl] at h1
  norm_num [posSumFrom, negSumFrom, closes, mkC, List.range_succ, rsiValue,
    jsDiv, jsAdd, jsSub] at h1

/-- C2 amended: `calculateRSI` returns an array of length `L - 1`.  Its value
at every index `i < p - 1` is the sentinel 0, and its value at index `p - 1`
(the first computed one, present when `p < L`) equals
`100 - 100/(1 + avgGain/avgLoss)` where `avgGain` and `avgLoss` are the
averages (in JavaScript arithmetic) of the cumulative positive and negative
closing-price changes over the first `p` transitions.  (Relative to the
original claim the indices are shifted down by one: the source loop starts at
`i = 1` but pushes its first value at array index 0.) -/
theorem claim_C2_amended (cs : List CandleInterface) (p : ℕ) (hp : 1 ≤ p) :
    (calculateRSI cs p).length = cs.length - 1 ∧
    (∀ i, i < p - 1 → i < cs.length - 1 →
      (calculateRSI cs p).getD i (ENum.fin 0) = ENum.fin 0) ∧
    (p < cs.length →
      (calculateRSI cs p).getD (p - 1) (ENum.fin 0) =
        jsSub (ENum.fin 100) (jsDiv (ENum.fin 100) (jsAdd (ENum.fin 1)
          (jsDiv (jsDiv (ENum.fin (gainSum cs p)) (ENum.fin (p : ℚ)))
                 (jsDiv (ENum.fin (lossSum cs p)) (ENum.fin (p : ℚ))))))) := by
  refine ⟨calculateRSI_length cs p, ?_, ?_⟩
  · intro i hi1 hi2
    rw [calculateRSI]
    exact rsiLoop_getD_zero (closes cs) p _ 1 0 0 i (by omega) (by omega)
  · intro hpl
    have harith : p - 1 + 1 = p := by omega
    rw [calculateRSI,
      rsiLoop_getD_first (closes cs) p (p - 1) 1 0 0 (cs.length - 1)
        (by omega) (by omega),
      harith, zero_add, zero_add, ← gainSum_eq, ← lossSum_eq, rsiValue]

/-- Witness for the amended C2 at closes `[1,2,1,2,1]`, period 2. -/
theorem claim_C2_amended_witness :
    (1 : ℕ) ≤ 2 ∧ 2 < ([1, 2, 1, 2, 1].map mkC).length ∧
    (calculateRSI ([1, 2, 1, 2, 1].map mkC) 2).getD (2 - 1) (ENum.fin 0) =
      jsSub (ENum.fin 100) (jsDiv (ENum.fin 100) (jsAdd (ENum.fin 1)
        (jsDiv (jsDiv (ENum.fin (gainSum ([1, 2, 1, 2, 1].map mkC) 2)) (ENum.fin (2 : ℚ)))
               (jsDiv (ENum.fin (lossSum ([1, 2, 1, 2, 1].map mkC) 2)) (ENum.fin (2 : ℚ)))))) :=
  ⟨by norm_num, by simp,
   (claim_C2_amended ([1, 2, 1, 2, 1].map mkC) 2 (by norm_num)).2.2 (by simp)⟩

/-! ### Indicator-composition lemmas -/

theorem calculateCorrelation_length (msqrt : ℚ → ENum)
    (cs bs : List CandleInterface) :
    (calculateCorrelation msqrt cs bs).length = cs.length := by
  simp [calculateCorrelation]

theorem calculateIndicators_length (msqrt : ℚ → ENum)
    (cs bs : List CandleInterface) :
    (calculateIndicators msqrt cs bs).length = cs.length := by
  simp [calculateIndicators]

theorem calculateIndicators_get? (msqrt : ℚ → ENum)
    (cs bs : List CandleInterface) (i : ℕ) :
    (calculateIndicators msqrt cs bs).get? i = (cs.get? i).map (fun candle =>
      { candle := candle
        sma_short := (calculateSMA cs 50).get? i
        sma_long := (calculateSMA cs 200).get? i
        rsi := (calculateRSI cs 14).get? i
        btc_correlation := (calculateCorrelation msqrt cs bs).get? i }) := by
  simp [calculateIndicators, List.get?_eq_getElem?, List.getElem?_mapIdx]

/-- Element `8*i + 6` of the flattened input vector is the `rsi` field of the
enriched candle at index `i` (slot 6 of that candle's 8-number block). -/
theorem flattenInput_rsi_slot (input : LearningDataInterface) :
    ∀ (i : ℕ) (cd : CandleDataInterface), input.candles.get? i = some cd →
      (flattenInput input).get? (8 * i + 6) = some cd.rsi := by
  suffices h : ∀ (l : List CandleDataInterface) (i : ℕ) (cd : CandleDataInterface),
      l.get? i = some cd →
        (l.flatMap fun cd =>
          [some (ENum.fin cd.candle.open), some (ENum.fin cd.candle.high),
           some (ENum.fin cd.candle.low), some (ENum.fin cd.candle.close),
           cd.sma_short, cd.sma_long, cd.rsi, cd.btc_correlation]).get? (8 * i + 6) =
          some cd.rsi by
    intro i cd hcd
    exact h input.candles i cd hcd
  intro l
  induction l with
  | nil => intro i cd hcd; simp at hcd
  | cons hd tl ih =>
    intro i cd hcd
    cases i with
    | zero =>
      simp at hcd
      subst hcd
      rfl
    | succ i =>
      simp only [List.get?_eq_getElem?, List.getElem?_cons_succ] at hcd
      rw [List.flatMap_cons]
      have hlen : (8 : ℕ) * (i + 1) + 6 = 8 + (8 * i + 6) := by ring
      rw [hlen, List.get?_eq_getElem?, List.getElem?_append_right (by simp)]
      simp only [List.length_cons, List.length_nil]
      have h8 : 8 + (8 * i + 6) - 8 = 8 * i + 6 := by omega
      rw [h8]
      rw [← List.get?_eq_getElem?]
      exact ih i cd (by rw [List.get?_eq_getElem?]; exact hcd)

/-- C1 (code bug): `calculateRSI`'s loop starts at `i = 1` and pushes one
value per iteration, so its output has length `L - 1`, not `L`: for a
2-candle input the SMA and correlation arrays have length 2, but the RSI
array has length 1, and the enriched candle at index 1 reads `rsi[1]` out of
bounds, leaving `undefined` in its `rsi` field. -/
theorem claim_C1_rsi_length_bug :
    ([mkC 1, mkC 2] : List CandleInterface).length = 2 ∧
    (calculateRSI [mkC 1, mkC 2] 14).length = 1 ∧
    (calculateSMA [mkC 1, mkC 2] 50).length = 2 ∧
    (calculateSMA [mkC 1, mkC 2] 200).length = 2 ∧
    (calculateCorrelation msqrt0 [mkC 1, mkC 2] [mkC 1, mkC 2]).length = 2 ∧
    (calculateIndicators msqrt0 [mkC 1, mkC 2] [mkC 1, mkC 2]).length = 2 ∧
    ((calculateIndicators msqrt0 [mkC 1, mkC 2] [mkC 1, mkC 2]).get? 1).map
      (fun cd => cd.rsi) = some none := by
  refine ⟨rfl, ?_, ?_, ?_, ?_, ?_, ?_⟩
  · rw [calculateRSI_length]; rfl
  · rw [calculateSMA_length]; rfl
  · rw [calculateSMA_length]; rfl
  · rw [calculateCorrelation_length]; rfl
  · rw [calculateIndicators_length]; rfl
  · rw [calculateIndicators_get?]
    have hl : (calculateRSI [mkC 1, mkC 2] 14).length = 1 := by
      simp [calculateRSI_length]
    have hrsi : (calculateRSI [mkC 1, mkC 2] 14).get? 1 = none := by
      rw [List.get?_eq_getElem?]
      exact List.getElem?_eq_none (by omega)
    simp [hrsi]
    omega

/-- C5: with 15 candles of constant closing price 5 and the default period 14,
both accumulated sums are 0, so `avgGain / avgLoss` is an unguarded `0 / 0`:
the computation completes normally and the resulting indeterminate value
(`NaN`) is stored at index 13 of the oscillator array, copied into the `rsi`
field of the enriched candle at index 13, and carried into slot `8*13 + 6` of
the flattened training vector.  (Holds for every model of `Math.sqrt`, which
the `rsi` field does not depend on.) -/
theorem claim_C5_division_unguarded (msqrt : ℚ → ENum) :
    gainSum (List.replicate 15 (mkC 5)) 14 = 0 ∧
    lossSum (List.replicate 15 (mkC 5)) 14 = 0 ∧
    (calculateRSI (List.replicate 15 (mkC 5)) 14).getD 13 (ENum.fin 0) = ENum.nan ∧
    ((calculateIndicators msqrt (List.replicate 15 (mkC 5))
        (List.replicate 15 (mkC 5))).get? 13).map (fun cd => cd.rsi) =
      some (some ENum.nan) ∧
    (flattenInput (ld15 msqrt)).get? (8 * 13 + 6) = some (some ENum.nan) := by
  have hcl : closes (List.replicate 15 (mkC 5)) = List.replicate 15 (5 : ℚ) := by
    simp [closes, mkC]
  have hchange : ∀ t, t < 14 → priceChange (List.replicate 15 (mkC 5)) (t + 1) = 0 := by
    intro t ht
    rw [priceChange, hcl, List.getD_eq_getElem?_getD, List.getD_eq_getElem?_getD,
      List.getElem?_replicate, List.getElem?_replicate,
      if_pos (by omega), if_pos (by omega)]
    norm_num
  have hgain : gainSum (List.replicate 15 (mkC 5)) 14 = 0 := by
    rw [gainSum]
    have hm : ((List.range 14).map fun t =>
        max (priceChange (List.replicate 15 (mkC 5)) (t + 1)) 0) =
        (List.range 14).map fun _ => (0 : ℚ) := by
      apply List.map_congr_left
      intro t ht
      rw [hchange t (List.mem_range.mp ht)]
      simp
    rw [hm]
    simp
  have hloss : lossSum (List.replicate 15 (mkC 5)) 14 = 0 := by
    rw [lossSum]
    have hm : ((List.range 14).map fun t =>
        max (-(priceChange (List.replicate 15 (mkC 5)) (t + 1))) 0) =
        (List.range 14).map fun _ => (0 : ℚ) := by
      apply List.map_congr_left
      intro t ht
      rw [hchange t (List.mem_range.mp ht)]
      simp
    rw [hm]
    simp
  have h13 : (calculateRSI (List.replicate 15 (mkC 5)) 14).getD 13 (ENum.fin 0) =
      ENum.nan := by
    rw [calculateRSI,
      rsiLoop_getD_first (closes (List.replicate 15 (mkC 5))) 14 13 1 0 0 _
        (by norm_num) (by simp),
      show (13 : ℕ) + 1 = 14 from rfl, zero_add, zero_add,
      ← gainSum_eq, ← lossSum_eq, hgain, hloss]
    norm_num [rsiValue, jsDiv, jsAdd, jsSub]
  have hlen : (calculateRSI (List.replicate 15 (mkC 5)) 14).length = 14 := by
    simp [calculateRSI_length]
  have hget : (calculateRSI (List.replicate 15 (mkC 5)) 14).get? 13 = some ENum.nan := by
    rw [List.get?_eq_getElem?, List.getElem?_eq_getElem (by omega)]
    congr 1
  have hrec := calculateIndicators_get? msqrt (List.replicate 15 (mkC 5))
    (List.replicate 15 (mkC 5)) 13
  have hcand : (List.replicate 15 (mkC 5)).get? 13 = some (mkC 5) := by
    rw [List.get?_eq_getElem?, List.getElem?_replicate, if_pos (by omega)]
  rw [hcand] at hrec
  refine ⟨hgain, hloss, h13, ?_, ?_⟩
  · simp only [hrec, Option.map, hget]
  · have hcands : (ld15 msqrt).candles.get? 13 =
        some { candle := mkC 5
               sma_short := (calculateSMA (List.replicate 15 (mkC 5)) 50).get? 13
               sma_long := (calculateSMA (List.replicate 15 (mkC 5)) 200).get? 13
               rsi := (calculateRSI (List.replicate 15 (mkC 5)) 14).get? 13
               btc_correlation := (calculateCorrelation msqrt (List.replicate 15 (mkC 5))
                 (List.replicate 15 (mkC 5))).get? 13 } := by
      exact hrec
    have hslot := flattenInput_rsi_slot (ld15 msqrt) 13 _ hcands
    rw [hslot]
    simp only [hget]

/-! ### Correlation lemmas -/

theorem closes_append (l1 l2 : List CandleInterface) :
    closes (l1 ++ l2) = closes l1 ++ closes l2 := by
  simp [closes]

/-- C4: the correlation output at index `i` (within the bounds of both
sequences) depends only on the prefixes `[0..i]` of both series — appending
future candles to either sequence leaves earlier values unchanged — and at
every index at or beyond the length of the reference sequence the value is
the sentinel 0. -/
theorem claim_C4_expanding_window (msqrt : ℚ → ENum)
    (cs bs cs2 bs2 : List CandleInterface) :
    (∀ i, i < cs.length → i < bs.length →
      (calculateCorrelation msqrt (cs ++ cs2) (bs ++ bs2)).getD i (ENum.fin 0) =
        (calculateCorrelation msqrt cs bs).getD i (ENum.fin 0)) ∧
    (∀ i, bs.length ≤ i → i < cs.length →
      (calculateCorrelation msqrt cs bs).getD i (ENum.fin 0) = ENum.fin 0) := by
  constructor
  · intro i hi hib
    rw [calculateCorrelation, calculateCorrelation, map_range_getD, map_range_getD,
      if_pos hi, if_pos (by rw [List.length_append]; omega),
      if_pos hib, if_pos (by rw [List.length_append]; omega),
      closes_append cs cs2, closes_append bs bs2,
      List.take_append_of_le_length (by rw [closes_length]; omega),
      List.take_append_of_le_length (by rw [closes_length]; omega)]
    dsimp only
    have hA : ∀ j ∈ List.range (i + 1),
        (closes cs ++ closes cs2).getD j 0 = (closes cs).getD j 0 := by
      intro j hj
      simp only [List.mem_range] at hj
      exact List.getD_append _ _ _ j (by rw [closes_length]; omega)
    have hB : ∀ j ∈ List.range (i + 1),
        (closes bs ++ closes bs2).getD j 0 = (closes bs).getD j 0 := by
      intro j hj
      simp only [List.mem_range] at hj
      exact List.getD_append _ _ _ j (by rw [closes_length]; omega)
    set m1 := (List.take (i + 1) (closes cs)).sum / ((i : ℚ) + 1) with hm1
    set m2 := (List.take (i + 1) (closes bs)).sum / ((i : ℚ) + 1) with hm2
    have hcov : List.map (fun j => ((closes cs ++ closes cs2).getD j 0 - m1) *
        ((closes bs ++ closes bs2).getD j 0 - m2)) (List.range (i + 1)) =
        List.map (fun j => ((closes cs).getD j 0 - m1) * ((closes bs).getD j 0 - m2))
          (List.range (i + 1)) := by
      apply List.map_congr_left
      intro j hj
      rw [hA j hj, hB j hj]
    have hvarA : List.map (fun j => ((closes cs ++ closes cs2).getD j 0 - m1) ^ 2)
        (List.range (i + 1)) =
        List.map (fun j => ((closes cs).getD j 0 - m1) ^ 2) (List.range (i + 1)) := by
      apply List.map_congr_left
      intro j hj
      rw [hA j hj]
    have hvarB : List.map (fun j => ((closes bs ++ closes bs2).getD j 0 - m2) ^ 2)
        (List.range (i + 1)) =
        List.map (fun j => ((closes bs).getD j 0 - m2) ^ 2) (List.range (i + 1)) := by
      apply List.map_congr_left
      intro j hj
      rw [hB j hj]
    rw [hcov, hvarA, hvarB]
  · intro i hib hi
    rw [calculateCorrelation, map_range_getD, if_pos hi, if_neg (by omega)]

/-- Witness for C4: appending one candle to each series does not change the
correlation at index 0, and the value at an index past the reference series
is the sentinel 0. -/
theorem claim_C4_expanding_window_witness :
    ((0 : ℕ) < ([mkC 1] : List CandleInterface).length ∧
      (0 : ℕ) < ([mkC 2] : List CandleInterface).length ∧
      (calculateCorrelation msqrt0 ([mkC 1] ++ [mkC 3]) ([mkC 2] ++ [mkC 4])).getD 0
          (ENum.fin 0) =
        (calculateCorrelation msqrt0 [mkC 1] [mkC 2]).getD 0 (ENum.fin 0)) ∧
    (([mkC 2] : List CandleInterface).length ≤ 1 ∧
      1 < ([mkC 1, mkC 3] : List CandleInterface).length ∧
      (calculateCorrelation msqrt0 [mkC 1, mkC 3] [mkC 2]).getD 1 (ENum.fin 0) =
        ENum.fin 0) :=
  ⟨⟨by simp, by simp,
    (claim_C4_expanding_window msqrt0 [mkC 1] [mkC 2] [mkC 3] [mkC 4]).1 0
      (by simp) (by simp)⟩,
   ⟨by simp, by simp,
    (claim_C4_expanding_window msqrt0 [mkC 1, mkC 3] [mkC 2] [] []).2 1
      (by simp) (by simp)⟩⟩

/-- C10: for every model of `Math.sqrt` with `sqrt 0 = 0` and every pair of
non-empty candle sequences, the correlation at index 0 is computed over the
single-element prefixes, whose variances are exactly 0, so the value is the
unguarded `0 / sqrt 0 = 0 / 0`, i.e. `NaN` — never a well-defined number. -/
theorem claim_C10_first_correlation_nan (msqrt : ℚ → ENum)
    (h0 : msqrt 0 = ENum.fin 0) (cs bs : List CandleInterface)
    (hcs : cs ≠ []) (hbs : bs ≠ []) :
    (calculateCorrelation msqrt cs bs).getD 0 (ENum.fin 0) = ENum.nan := by
  obtain ⟨c, cs', rfl⟩ := List.exists_cons_of_ne_nil hcs
  obtain ⟨b, bs', rfl⟩ := List.exists_cons_of_ne_nil hbs
  rw [calculateCorrelation, map_range_getD, if_pos (by simp), if_pos (by simp)]
  dsimp only
  simp only [closes, List.map_cons, List.take_succ_cons, List.take_zero,
    List.sum_cons, List.sum_nil, List.range_succ, List.range_zero,
    List.nil_append, List.map_append, List.map_nil, List.sum_append,
    List.getD_cons_zero]
  norm_num
  rw [h0, jsDiv]
  norm_num

/-- Witness for C10 at one-candle series and the zero square root model. -/
theorem claim_C10_first_correlation_nan_witness :
    msqrt0 0 = ENum.fin 0 ∧ ([mkC 1] : List CandleInterface) ≠ [] ∧
    ([mkC 2] : List CandleInterface) ≠ [] ∧
    (calculateCorrelation msqrt0 [mkC 1] [mkC 2]).getD 0 (ENum.fin 0) = ENum.nan :=
  ⟨rfl, by simp, by simp,
   claim_C10_first_correlation_nan msqrt0 rfl [mkC 1] [mkC 2] (by simp) (by simp)⟩

/-- Witness for C5: its statement instantiated at the concrete square-root
model. -/
theorem claim_C5_division_unguarded_witness :
    gainSum (List.replicate 15 (mkC 5)) 14 = 0 ∧
    lossSum (List.replicate 15 (mkC 5)) 14 = 0 ∧
    (calculateRSI (List.replicate 15 (mkC 5)) 14).getD 13 (ENum.fin 0) = ENum.nan ∧
    ((calculateIndicators msqrt0 (List.replicate 15 (mkC 5))
        (List.replicate 15 (mkC 5))).get? 13).map (fun cd => cd.rsi) =
      some (some ENum.nan) ∧
    (flattenInput (ld15 msqrt0)).get? (8 * 13 + 6) = some (some ENum.nan) :=
  claim_C5_division_unguarded msqrt0
